import Mathlib

/-!
A shallow embedding of the G-code interpreter of RepRapFirmware (`src/GCodes.h`).

The repository provides only the header `GCodes.h`; the bodies of the declared
member functions live in a `GCodes.cpp` that is not part of the sources here.
Definitions taken directly from the header (the inline member functions) carry a
reference to their lines; every other operation is modelled from the design
specification, as indicated by a doc comment starting with `Modelled from the
spec:`.  C++ `float` values are embedded as rationals (the claims only compare
and copy them), machine integers as `Nat`/`Int` with explicit wrapping where it
matters, and the mutable interpreter object as an explicit state record.
-/

namespace RepRap

/-- `GCODE_LENGTH` from GCodes.h line 26: maximum length of a G Code line. -/
def GCODE_LENGTH : Nat := 100

/-- `STACK` from GCodes.h line 25: capacity of the push/pop modal stack. -/
def STACK : Nat := 5

/-- Number of movement axes, per `AXIS_LETTERS { 'X', 'Y', 'Z' }` in GCodes.h. -/
def AXES : Nat := 3

/-- Modelled from the spec: `DRIVES` is defined in the missing `Configuration.h`;
the spec's PendingMove holds a "target position per axis/extruder", so the
drives are the three axes plus one extruder. -/
def DRIVES : Nat := 4

/-- The axis key letters `AXIS_LETTERS { 'X', 'Y', 'Z' }` (GCodes.h line 28). -/
def axisLetter (i : Nat) : Char :=
  if i = 0 then 'X' else if i = 1 then 'Y' else 'Z'

/-- The ASCII character of a decimal digit. -/
def digitChar (d : Fin 10) : Char := Char.ofNat (48 + d.val)

/-- Value of a big-endian list of decimal digits. -/
def natOfDigitsF (ds : List (Fin 10)) : Nat := ds.foldl (fun a d => 10 * a + d.val) 0

/-- Value of a big-endian run of ASCII digit characters (as `strtol` computes it). -/
def natOfCharDigits (cs : List Char) : Nat := cs.foldl (fun a c => 10 * a + (c.toNat - 48)) 0

/-- Parse a nonempty all-digit character run as a natural number. -/
def parseNatDigits (cs : List Char) : Option Nat :=
  if cs.isEmpty then none
  else if cs.all Char.isDigit then some (natOfCharDigits cs) else none

/-- Modelled from the spec: `GCodeBuffer::CheckSum` (declared at GCodes.h line 55,
body in the missing GCodes.cpp) computes "the exclusive-or of all preceding
characters masked to 8 bits", i.e. the xor of every character before the `*`. -/
def CheckSum (cs : List Char) : Nat :=
  (cs.takeWhile (fun c => c ≠ '*')).foldl (fun a c => (Nat.xor a c.toNat) % 256) 0

/-- Modelled from the spec: the line-number tag is "a leading `N<number>`". -/
def lineNumberOf (body : List Char) : Nat :=
  if body.head? = some 'N' then natOfCharDigits (body.tail.takeWhile Char.isDigit) else 0

/-- The state of one `GCodeBuffer` (GCodes.h lines 34-64).  The C++ stores the
line in a fixed `char` array behind a write pointer `gcodePointer`; here the
characters written so far are a list (the pointer is its length).  `ready`
records "has a complete, not-yet-executed command" (spec section 2), which the
C++ communicates through `Put`'s return value; `resendRequested` records a
pending checksum-mismatch resend request and the line number it names. -/
structure GCodeBuffer where
  gcodeBuffer : List Char
  inComment : Bool
  finished : Bool
  ready : Bool
  resendRequested : Option Nat
  overflowed : Bool

/-- `GCodeBuffer::Init` (declared GCodes.h line 38; modelled from the spec):
an empty buffer holding no command. -/
def initBuffer : GCodeBuffer :=
  { gcodeBuffer := [], inComment := false, finished := true, ready := false,
    resendRequested := none, overflowed := false }

/-- Comment text runs "from `;` to line end" and is excluded from field parsing. -/
def stripComment (cs : List Char) : List Char := cs.takeWhile (fun c => c ≠ ';')

/-- Modelled from the spec: line finalization on the terminator.  If a `*nnn`
checksum suffix is present it is validated against `CheckSum`; "on mismatch,
flags a resend condition identified by line number rather than executing".
On success the buffer holds the command text (comment excluded) and reports a
complete line. -/
def finalizeLine (b : GCodeBuffer) : GCodeBuffer × Bool :=
  let cs := b.gcodeBuffer
  if cs.contains '*' then
    let body := cs.takeWhile (fun c => c ≠ '*')
    match parseNatDigits ((cs.dropWhile (fun c => c ≠ '*')).tail) with
    | some k =>
      if k = CheckSum cs then
        ({ b with gcodeBuffer := stripComment body, inComment := false,
                  finished := false, ready := true, resendRequested := none }, true)
      else
        ({ b with gcodeBuffer := [], inComment := false,
                  ready := false, resendRequested := some (lineNumberOf body) }, false)
    | none =>
      ({ b with gcodeBuffer := [], inComment := false,
                ready := false, resendRequested := some (lineNumberOf body) }, false)
  else
    ({ b with gcodeBuffer := stripComment cs, inComment := false,
              finished := false, ready := true, resendRequested := none }, true)

/-- Modelled from the spec: `GCodeBuffer::Put` (declared GCodes.h line 39)
"appends one character unless it is a line terminator, in which case it
finalizes the line ... Returns whether a complete line is now ready.
Buffer overflow truncates and flags an error". -/
def put (b : GCodeBuffer) (c : Char) : GCodeBuffer × Bool :=
  if c = '\n' then finalizeLine b
  else if b.gcodeBuffer.length ≥ GCODE_LENGTH - 1 then
    ({ b with overflowed := true }, false)
  else
    ({ b with gcodeBuffer := b.gcodeBuffer ++ [c],
              inComment := b.inComment || decide (c = ';') }, false)

/-- Feed a list of characters to a buffer one `put` at a time. -/
def putLine (b : GCodeBuffer) (cs : List Char) : GCodeBuffer :=
  cs.foldl (fun b c => (put b c).1) b

/-- The suffix of `cs` following the first occurrence of `key`, if any.  This is
the reading position `GCodeBuffer::Seen` (GCodes.h line 40) establishes before
a value is extracted. -/
def afterKey (cs : List Char) (key : Char) : Option (List Char) :=
  match cs with
  | [] => none
  | c :: rest => if c = key then some rest else afterKey rest key

/-- Modelled from the spec: `GCodeBuffer::Seen` — "scans the line for an
occurrence of the key letter". -/
def Seen (b : GCodeBuffer) (key : Char) : Bool := (afterKey b.gcodeBuffer key).isSome

/-- Parse an unsigned decimal literal prefix (digits, optionally a decimal point
and more digits) as an exact rational, as `strtod` reads it. -/
def parseUQPrefix (cs : List Char) : ℚ :=
  let ids := cs.takeWhile Char.isDigit
  let rest := cs.dropWhile Char.isDigit
  let fds := if rest.head? = some '.' then rest.tail.takeWhile Char.isDigit else []
  (natOfCharDigits ids : ℚ) + (natOfCharDigits fds : ℚ) / (10 : ℚ) ^ fds.length

/-- Parse a signed decimal literal prefix as an exact rational. -/
def parseQPrefix (cs : List Char) : ℚ :=
  if cs.head? = some '-' then -(parseUQPrefix cs.tail) else parseUQPrefix cs

/-- Parse a signed integer literal prefix (as `strtol` reads it: an optional
sign then a digit run, stopping at the first non-digit). -/
def parseIntPrefix (cs : List Char) : Int :=
  if cs.head? = some '-' then -(natOfCharDigits (cs.tail.takeWhile Char.isDigit) : Int)
  else (natOfCharDigits (cs.takeWhile Char.isDigit) : Int)

/-- Modelled from the spec: `GCodeBuffer::GetFValue` (GCodes.h line 41) — "locates
the key letter and parses the following numeric literal".  The C++ reads from the
position set by a preceding `Seen`; here the key is passed explicitly.  An absent
key yields 0, the error default. -/
def GetFValue (b : GCodeBuffer) (key : Char) : ℚ :=
  match afterKey b.gcodeBuffer key with
  | some rest => parseQPrefix rest
  | none => 0

/-- Modelled from the spec: `GCodeBuffer::GetLValue` (GCodes.h line 43) — the
integer literal after the key letter. -/
def GetLValue (b : GCodeBuffer) (key : Char) : Int :=
  match afterKey b.gcodeBuffer key with
  | some rest => parseIntPrefix rest
  | none => 0

/-- `GCodeBuffer::GetIValue` (GCodes.h lines 187-190): `return (int)GetLValue();`. -/
def GetIValue (b : GCodeBuffer) (key : Char) : Int := GetLValue b key

/-- A character that can belong to a numeric literal. -/
def isNumChar (c : Char) : Bool := c.isDigit || c = '.' || c = '-'

/-- A key letter: a single uppercase character (spec section 3). -/
def isKeyChar (c : Char) : Bool := 65 ≤ c.toNat && c.toNat ≤ 90

/-- The maximal run of numeric-literal characters and `:` separators: the text a
vector field occupies after its key letter. -/
def vectorSpan (cs : List Char) : List Char :=
  cs.takeWhile (fun c => isNumChar c || c = ':')

/-- Split a character run at each `:` separator. -/
def splitOnColon : List Char → List (List Char)
  | [] => [[]]
  | c :: rest =>
    if c = ':' then [] :: splitOnColon rest
    else
      match splitOnColon rest with
      | t :: ts => (c :: t) :: ts
      | [] => [[c]]

/-- Modelled from the spec: `GCodeBuffer::GetFloatArray` (GCodes.h line 46) —
"splits a colon-delimited run following the key letter; count is bounded by the
caller-supplied capacity; excess values are a reported error". -/
def GetFloatArray (b : GCodeBuffer) (key : Char) (cap : Nat) : Option (List ℚ) :=
  match afterKey b.gcodeBuffer key with
  | none => none
  | some rest =>
    let toks := splitOnColon (vectorSpan rest)
    if toks.length ≤ cap then some (toks.map parseQPrefix) else none

/-- Modelled from the spec: `GCodeBuffer::GetLongArray` (GCodes.h line 47) — the
colon-separated long integers after the key letter. -/
def GetLongArray (b : GCodeBuffer) (key : Char) (cap : Nat) : Option (List Int) :=
  match afterKey b.gcodeBuffer key with
  | none => none
  | some rest =>
    let toks := splitOnColon (vectorSpan rest)
    if toks.length ≤ cap then some (toks.map parseIntPrefix) else none

/-- A `FileStore*` handle, reduced to the one external observation the core
reads from it: `FractionRead()` (spec section 6: `fractionRead(handle) -> 0..1`). -/
structure FileStore where
  FractionRead : ℚ

/-- The result of one tick of a multi-tick procedure (spec section 4.2: a handler
tick is *done*, *in-progress*, or aborts with a fault). -/
inductive ProcResult where
  | inProgress
  | done
  | fault
deriving DecidableEq

/-- Modelled from the spec: a named bound on how many ticks a homing step may
wait for its endstop before the missing-endstop condition aborts the procedure
("a timeout or missing-endstop condition aborts the procedure"). -/
def HOME_TIMEOUT_TICKS : Nat := 1000

/-- The state of the `GCodes` interpreter (GCodes.h lines 70-181), its arrays
embedded as functions from indices.  `homeWaitTicks` is the modelled timeout
counter of the homing procedure; `probePoints` accumulates the recorded probe
coordinates (`GetProbeCoordinates` reads them back); `bedEquation` records the
invocation of the out-of-scope bed-leveling computation together with the
points handed to it. -/
structure GCodesState where
  webGCode : GCodeBuffer
  fileGCode : GCodeBuffer
  serialGCode : GCodeBuffer
  fileMacroGCode : GCodeBuffer
  moveAvailable : Bool
  moveBuffer : Nat → ℚ
  moveToDo : Nat → ℚ
  activeDrive : Nat → Bool
  checkEndStops : Bool
  drivesRelative : Bool
  axesRelative : Bool
  drivesRelativeStack : Nat → Bool
  axesRelativeStack : Nat → Bool
  feedrateStack : Nat → ℚ
  fileStack : Nat → Option FileStore
  stackPointer : Nat
  distanceScale : ℚ
  fileBeingPrinted : Option FileStore
  fileToPrint : Option FileStore
  fractionOfFilePrinted : ℚ
  doingFileMacro : Bool
  limitAxes : Bool
  axisMax : Nat → ℚ
  homeX : Bool
  homeY : Bool
  homeZ : Bool
  homeAxisMoveCount : Nat
  homeWaitTicks : Nat
  probeCount : Nat
  probePoints : List (ℚ × ℚ × ℚ)
  zProbesSet : Bool
  bedEquation : Option (List (ℚ × ℚ × ℚ))
  axisHasBeenHomed : Nat → Bool

/-- `GCodes::Init` (declared GCodes.h line 76; modelled from the spec): a fresh
idle interpreter with empty buffers and cleared procedure state. -/
def initState : GCodesState :=
  { webGCode := initBuffer, fileGCode := initBuffer, serialGCode := initBuffer,
    fileMacroGCode := initBuffer, moveAvailable := false,
    moveBuffer := fun _ => 0, moveToDo := fun _ => 0, activeDrive := fun _ => false,
    checkEndStops := false, drivesRelative := true, axesRelative := false,
    drivesRelativeStack := fun _ => false, axesRelativeStack := fun _ => false,
    feedrateStack := fun _ => 0, fileStack := fun _ => none, stackPointer := 0,
    distanceScale := 1, fileBeingPrinted := none, fileToPrint := none,
    fractionOfFilePrinted := -1, doingFileMacro := false, limitAxes := true,
    axisMax := fun _ => 200, homeX := false, homeY := false, homeZ := false,
    homeAxisMoveCount := 0, homeWaitTicks := 0, probeCount := 0, probePoints := [],
    zProbesSet := false, bedEquation := none, axisHasBeenHomed := fun _ => false }

/-- `GCodes::GetAxisHasBeenHomed` (GCodes.h line 87):
`return axisHasBeenHomed[axis];`. -/
def GetAxisHasBeenHomed (s : GCodesState) (axis : Nat) : Bool := s.axisHasBeenHomed axis

/-- `GCodes::FractionOfFilePrinted` (GCodes.h lines 217-224): `-1.0` when no
file is being printed, the saved `fractionOfFilePrinted` when it is
non-negative, and otherwise the file's own `FractionRead()`. -/
def FractionOfFilePrinted (s : GCodesState) : ℚ :=
  match s.fileBeingPrinted with
  | none => -1
  | some f => if s.fractionOfFilePrinted < 0 then f.FractionRead else s.fractionOfFilePrinted

/-- The int8_t wrap-around of C++ (two's complement, 8 bits). -/
def int8Wrap (n : Int) : Int := (n + 128) % 256 - 128

/-- `GCodes::Heater` (GCodes.h lines 239-242): `return head+1;` on `int8_t` —
legacy G codes start heaters at 0, but internally 0 is the bed. -/
def Heater (head : Int) : Int := int8Wrap (head + 1)

/-- Modelled from the spec: `GCodes::Push` (declared GCodes.h line 114) saves
feedrate, the relative-mode flags and the active file as one modal-stack entry;
it "fails (no-op) if already at capacity, preserving the prior top-of-stack". -/
def Push (s : GCodesState) : GCodesState × Bool :=
  if s.stackPointer ≥ STACK then (s, false)
  else
    ({ s with
        drivesRelativeStack := fun i =>
          if i = s.stackPointer then s.drivesRelative else s.drivesRelativeStack i,
        axesRelativeStack := fun i =>
          if i = s.stackPointer then s.axesRelative else s.axesRelativeStack i,
        feedrateStack := fun i =>
          if i = s.stackPointer then s.moveBuffer DRIVES else s.feedrateStack i,
        fileStack := fun i =>
          if i = s.stackPointer then s.fileBeingPrinted else s.fileStack i,
        stackPointer := s.stackPointer + 1 }, true)

/-- Modelled from the spec: `GCodes::Pop` (declared GCodes.h line 115) restores
the entry below the stack pointer; it "fails if empty" without mutating state. -/
def Pop (s : GCodesState) : GCodesState × Bool :=
  if s.stackPointer = 0 then (s, false)
  else
    let sp := s.stackPointer - 1
    ({ s with
        stackPointer := sp,
        drivesRelative := s.drivesRelativeStack sp,
        axesRelative := s.axesRelativeStack sp,
        moveBuffer := fun i => if i = DRIVES then s.feedrateStack sp else s.moveBuffer i,
        fileBeingPrinted := s.fileStack sp }, true)

/-- Modelled from the spec: `GCodes::DoFileMacro` (declared GCodes.h line 94)
"opens a nested CommandBuffer sourced from a named file, pushes current
ModalState, and routes subsequent ticks to the macro buffer"; the saved
`fractionOfFilePrinted` records the main file's progress while the macro runs
(GCodes.h line 163).  "Macro nesting depth is bounded by the ModalStateStack
capacity; exceeding it fails the macro-open request without corrupting the
stack."  Returns whether the macro was opened. -/
def DoFileMacro (s : GCodesState) (f : FileStore) : GCodesState × Bool :=
  let pushed := Push s
  if pushed.2 then
    ({ pushed.1 with
        fractionOfFilePrinted :=
          match s.fileBeingPrinted with
          | some main => main.FractionRead
          | none => s.fractionOfFilePrinted,
        fileBeingPrinted := some f,
        doingFileMacro := true,
        fileMacroGCode := initBuffer }, true)
  else (pushed.1, false)

/-- Modelled from the spec: `GCodes::LoadMoveBufferFromGCode` (GCodes.h lines
111-112) "reads axis/extruder fields present on the line, applies relative-mode
translation ... independently per axis-group, enforces configured travel limits
when limit-checking is enabled", and records per drive whether it takes part in
the move; "a per-axis flag distinguishes omitted axes (hold position) from
explicit zero targets".  Index `DRIVES` is the feedrate slot. -/
def LoadMoveBufferFromGCode (s : GCodesState) (gb : GCodeBuffer) (doingG92 : Bool) :
    GCodesState :=
  let axisTarget : Nat → ℚ := fun i =>
    let v := GetFValue gb (axisLetter i) * s.distanceScale
    let t := if s.axesRelative && !doingG92 then s.moveToDo i + v else v
    if s.limitAxes && !doingG92 then
      if t < 0 then 0 else if t > s.axisMax i then s.axisMax i else t
    else t
  { s with
      activeDrive := fun i =>
        if i < AXES then Seen gb (axisLetter i)
        else if i < DRIVES then Seen gb 'E'
        else true,
      moveToDo := fun i =>
        if i < AXES then
          if Seen gb (axisLetter i) then axisTarget i else s.moveToDo i
        else if i < DRIVES then
          if Seen gb 'E' then
            let v := GetFValue gb 'E' * s.distanceScale
            if s.drivesRelative && !doingG92 then s.moveToDo i + v else v
          else s.moveToDo i
        else
          if Seen gb 'F' then GetFValue gb 'F' * s.distanceScale else s.moveToDo i }

/-- Modelled from the spec: `GCodes::SetUpMove` (declared GCodes.h line 100)
stages a move into the PendingMove slot; it "fails (no move queued) if a move is
already pending and unconsumed". -/
def SetUpMove (s : GCodesState) (gb : GCodeBuffer) : GCodesState × Bool :=
  if s.moveAvailable then (s, false)
  else
    let s1 := LoadMoveBufferFromGCode s gb false
    ({ s1 with moveBuffer := s1.moveToDo, checkEndStops := false,
               moveAvailable := true }, true)

/-- Modelled from the spec: `GCodes::ReadMove` (declared GCodes.h line 79) is the
motion subsystem's pull operation on the single-slot mailbox: it returns the
staged move, if any, "and also clears the available flag". -/
def ReadMove (s : GCodesState) : GCodesState × Option ((Nat → ℚ) × Bool) :=
  if s.moveAvailable then
    ({ s with moveAvailable := false }, some (s.moveBuffer, s.checkEndStops))
  else (s, none)

/-- The identity of a command source (spec section 2: network, file being
printed, serial line, macro file). -/
inductive Source where
  | web
  | serial
  | file
  | macroFile
deriving DecidableEq

/-- A buffer may be dispatched when its completion flag has been cleared and it
holds a complete line (spec section 8: "the Dispatcher only polls buffers
currently flagged incomplete-then-filled"). -/
def dispatchReady (b : GCodeBuffer) : Bool := !b.finished && b.ready

/-- Modelled from the spec: the Dispatcher's source arbitration (spec section
4.2): "the active macro buffer (if a macro is open) strictly before the three
external sources; among external sources, a fixed origin order (network,
serial, file-being-printed)". -/
def chooseSource (s : GCodesState) : Option Source :=
  if s.doingFileMacro then
    if dispatchReady s.fileMacroGCode then some Source.macroFile else none
  else if dispatchReady s.webGCode then some Source.web
  else if dispatchReady s.serialGCode then some Source.serial
  else if dispatchReady s.fileGCode then some Source.file
  else none

/-- Mark a buffer executed (`GCodeBuffer::SetFinished`, GCodes.h lines 202-205),
releasing its completed line. -/
def markExecuted (b : GCodeBuffer) : GCodeBuffer :=
  { b with finished := true, ready := false }

/-- Modelled from the spec: `GCodes::HandleGcode` (declared GCodes.h line 97).
G0/G1 stage a move (retrying on a later tick while the mailbox is full); other
codes complete synchronously here.  Returns the machine state and the
dispatched buffer. -/
def HandleGcode (s : GCodesState) (gb : GCodeBuffer) (code : Int) :
    GCodesState × GCodeBuffer :=
  if code = 0 ∨ code = 1 then
    let r := SetUpMove s gb
    if r.2 then (r.1, markExecuted gb) else (r.1, gb)
  else (s, markExecuted gb)

/-- Modelled from the spec: `GCodes::ActOnCode` (declared GCodes.h line 96)
classifies a complete line by its leading command letter and numeric code and
dispatches it. -/
def ActOnCode (s : GCodesState) (gb : GCodeBuffer) : GCodesState × GCodeBuffer :=
  if Seen gb 'G' then HandleGcode s gb (GetIValue gb 'G')
  else (s, markExecuted gb)

/-- Modelled from the spec: one tick of `GCodes::Spin` (declared GCodes.h line
75): select at most one ready source and dispatch its line.  Origins fill the
buffers outside of this function (spec section 5: "origins only append bytes to
their assigned buffer"). -/
def Spin (s : GCodesState) : GCodesState :=
  match chooseSource s with
  | none => s
  | some Source.web =>
    let r := ActOnCode s s.webGCode
    { r.1 with webGCode := r.2 }
  | some Source.serial =>
    let r := ActOnCode s s.serialGCode
    { r.1 with serialGCode := r.2 }
  | some Source.file =>
    let r := ActOnCode s s.fileGCode
    { r.1 with fileGCode := r.2 }
  | some Source.macroFile =>
    let r := ActOnCode s s.fileMacroGCode
    { r.1 with fileMacroGCode := r.2 }

/-- The axis the homing procedure is currently driving: `homeX`, then `homeY`,
then `homeZ` (GCodes.h lines 169-171; spec: "one axis at a time"). -/
def selectedHomeAxis (s : GCodesState) : Option Nat :=
  if s.homeX then some 0 else if s.homeY then some 1
  else if s.homeZ then some 2 else none

/-- Modelled from the spec: one tick of `GCodes::DoHome` (declared GCodes.h line
102).  Each tick polls the endstop of the axis being homed: "on reaching the
expected endstop condition marks that axis homed and advances the step counter.
A timeout or missing-endstop condition aborts the procedure and reports a fault
instead of marking the axis homed", clearing procedure and pending-move state. -/
def doHomeTick (s : GCodesState) (endstopTriggered : Bool) : GCodesState × ProcResult :=
  match selectedHomeAxis s with
  | none => ({ s with homeAxisMoveCount := 0, homeWaitTicks := 0 }, ProcResult.done)
  | some a =>
    if endstopTriggered then
      ({ s with
          axisHasBeenHomed := fun i => if i = a then true else s.axisHasBeenHomed i,
          homeX := if a = 0 then false else s.homeX,
          homeY := if a = 1 then false else s.homeY,
          homeZ := if a = 2 then false else s.homeZ,
          homeAxisMoveCount := s.homeAxisMoveCount + 1,
          homeWaitTicks := 0 }, ProcResult.inProgress)
    else if s.homeWaitTicks + 1 ≥ HOME_TIMEOUT_TICKS then
      ({ s with homeX := false, homeY := false, homeZ := false,
                homeAxisMoveCount := 0, homeWaitTicks := 0,
                moveAvailable := false }, ProcResult.fault)
    else
      ({ s with homeWaitTicks := s.homeWaitTicks + 1 }, ProcResult.inProgress)

/-- Run the homing procedure for `n` ticks against a stream of endstop readings,
stopping at the first tick whose result is not in-progress. -/
def homeSteps (es : Nat → Bool) (s : GCodesState) : Nat → GCodesState × ProcResult
  | 0 => (s, ProcResult.inProgress)
  | n + 1 =>
    let r := homeSteps es s n
    match r.2 with
    | ProcResult.inProgress => doHomeTick r.1 (es n)
    | _ => r

/-- Modelled from the spec: the probe-trigger step of
`GCodes::SetBedEquationWithProbe` (declared GCodes.h line 107).  Each trigger
"records the triggering coordinate, and for the multi-point series accumulates
coordinates across a known number of points before invoking the bed-leveling
equation computation" (the computation itself lives in the out-of-scope motion
subsystem; `bedEquation` records its invocation and arguments).  Once
`zProbesSet` is set, probing is over and a spurious trigger has no effect. -/
def setBedEquationTrigger (n : Nat) (pt : ℚ × ℚ × ℚ) (s : GCodesState) : GCodesState :=
  if s.zProbesSet then s
  else
    let pts := s.probePoints ++ [pt]
    if s.probeCount + 1 ≥ n then
      { s with probePoints := pts, probeCount := s.probeCount + 1,
               zProbesSet := true, bedEquation := some pts }
    else
      { s with probePoints := pts, probeCount := s.probeCount + 1 }

/-- Feed a list of probe-trigger events to the probing procedure in order. -/
def probeRun (n : Nat) (s : GCodesState) (pts : List (ℚ × ℚ × ℚ)) : GCodesState :=
  pts.foldl (fun s p => setBedEquationTrigger n p s) s

/-- `GCodes::GetProbeCoordinates` (declared GCodes.h line 82): read back a
pre-recorded probe coordinate. -/
def GetProbeCoordinates (s : GCodesState) (count : Nat) : Option (ℚ × ℚ × ℚ) :=
  s.probePoints.get? count

/-! Syntactic numeric literals and line rendering.  To quantify over "every
valid command line" the theorems below build lines from lists of key letters
and literal field values; these definitions give the literals, their rendered
text and their exact values. -/

/-- A decimal numeric literal: optional sign, integer digits, optional
fractional digits. -/
structure NumLit where
  neg : Bool
  intDigits : List (Fin 10)
  fracDigits : List (Fin 10)

/-- The text of the fractional part of a numeric literal. -/
def fracRender (fds : List (Fin 10)) : List Char :=
  if fds.isEmpty then [] else '.' :: fds.map digitChar

/-- The text of a numeric literal. -/
def renderNumLit (v : NumLit) : List Char :=
  (if v.neg then ['-'] else []) ++ v.intDigits.map digitChar ++ fracRender v.fracDigits

/-- The exact rational value of a numeric literal. -/
def numLitVal (v : NumLit) : ℚ :=
  let m : ℚ := (natOfDigitsF v.intDigits : ℚ) +
    (natOfDigitsF v.fracDigits : ℚ) / (10 : ℚ) ^ v.fracDigits.length
  if v.neg then -m else m

/-- The integer value of a numeric literal with no fractional digits. -/
def numLitIntVal (v : NumLit) : Int :=
  if v.neg then -(natOfDigitsF v.intDigits : Int) else (natOfDigitsF v.intDigits : Int)

/-- A field value on a command line: a single numeric literal or a
colon-separated vector of them. -/
inductive FieldVal where
  | num (v : NumLit)
  | vec (vs : List NumLit)

/-- The text of a vector field value: literals joined by `:`. -/
def renderVec : List NumLit → List Char
  | [] => []
  | [v] => renderNumLit v
  | v :: rest => renderNumLit v ++ ':' :: renderVec rest

/-- The text of a field value. -/
def renderFieldVal : FieldVal → List Char
  | FieldVal.num v => renderNumLit v
  | FieldVal.vec vs => renderVec vs

/-- The text of one field: its key letter followed by its value. -/
def renderField (f : Char × FieldVal) : List Char := f.1 :: renderFieldVal f.2

/-- The text of a command line: the fields in order, each followed by a space. -/
def renderFields : List (Char × FieldVal) → List Char
  | [] => []
  | f :: rest => renderField f ++ ' ' :: renderFields rest

/-- A machine state whose modal stack is full, for exercising the capacity
bound. -/
def fullStackState : GCodesState := { initState with stackPointer := STACK }

/-- A machine state with a staged, unconsumed pending move. -/
def movePendingState : GCodesState := { initState with moveAvailable := true }

/-- A machine state in the middle of homing the X axis. -/
def homingState : GCodesState := { initState with homeX := true }

/-! The claims. -/

/-- Claim C10: for every head index `h` (any head value whose successor fits the
`int8_t` return type), the heater-index translation `Heater` returns `h + 1`:
legacy G-code head numbering starting at 0 is shifted by one because internal
heater 0 is the bed. -/
theorem Heater_adds_one (head : Int) (h1 : -128 ≤ head) (h2 : head < 127) :
    Heater head = head + 1 := by
  unfold Heater int8Wrap
  have h3 : (head + 1 + 128) % 256 = head + 1 + 128 :=
    Int.emod_eq_of_lt (by omega) (by omega)
  omega

/-- Witness for C10 at head 0: the first head uses heater 1. -/
theorem Heater_adds_one_witness : Heater 0 = 1 :=
  Heater_adds_one 0 (by decide) (by decide)

/-- Claim C9: `FractionOfFilePrinted` returns -1.0 exactly when no file is being
printed (given the interface guarantee that `FractionRead` is non-negative);
when a non-negative saved fraction exists it returns that saved main-file
fraction; otherwise it returns the printed file's own `FractionRead`. -/
theorem FractionOfFilePrinted_cases (s : GCodesState)
    (hfr : ∀ f, s.fileBeingPrinted = some f → 0 ≤ f.FractionRead) :
    (FractionOfFilePrinted s = -1 ↔ s.fileBeingPrinted = none) ∧
    (s.fileBeingPrinted ≠ none → 0 ≤ s.fractionOfFilePrinted →
      FractionOfFilePrinted s = s.fractionOfFilePrinted) ∧
    (∀ f, s.fileBeingPrinted = some f → s.fractionOfFilePrinted < 0 →
      FractionOfFilePrinted s = f.FractionRead) := by
  rcases hfb : s.fileBeingPrinted with _ | f
  · refine ⟨by simp [FractionOfFilePrinted, hfb], ?_, ?_⟩
    · intro h; exact absurd rfl h
    · intro f hf; exact Option.noConfusion hf
  · have hge := hfr f hfb
    have hval : FractionOfFilePrinted s =
        (if s.fractionOfFilePrinted < 0 then f.FractionRead else s.fractionOfFilePrinted) := by
      simp [FractionOfFilePrinted, hfb]
    refine ⟨⟨?_, ?_⟩, ?_, ?_⟩
    · intro h
      exfalso
      rw [hval] at h
      by_cases hc : s.fractionOfFilePrinted < 0
      · rw [if_pos hc] at h; linarith
      · rw [if_neg hc] at h; push_neg at hc; linarith
    · intro h; exact Option.noConfusion h
    · intro _ hge2; rw [hval, if_neg (not_lt.mpr hge2)]
    · intro g hg hlt
      injection hg with hg'
      rw [hval, if_pos hlt, hg']

/-- Witness for C9 at the fresh state, where no file is being printed. -/
theorem FractionOfFilePrinted_cases_witness :
    FractionOfFilePrinted initState = -1 ↔ initState.fileBeingPrinted = none :=
  (FractionOfFilePrinted_cases initState (by intro f h; simp [initState] at h)).1

/-- Claim C2: pushing the full (capacity-5) modal stack fails and leaves the
whole stack and stack pointer unchanged; popping an empty stack fails without
mutating state; and opening a macro when the stack is already at depth 5 (the
sixth nesting level) fails the macro open and leaves the same source in control
on the next tick. -/
theorem stack_bounds (s t : GCodesState) (f : FileStore) :
    (s.stackPointer ≥ STACK → Push s = (s, false)) ∧
    (t.stackPointer = 0 → Pop t = (t, false)) ∧
    (s.stackPointer ≥ STACK →
      DoFileMacro s f = (s, false) ∧ chooseSource (DoFileMacro s f).1 = chooseSource s) := by
  refine ⟨?_, ?_, ?_⟩
  · intro h; unfold Push; rw [if_pos h]
  · intro h; unfold Pop; rw [if_pos h]
  · intro h
    have hp : Push s = (s, false) := by unfold Push; rw [if_pos h]
    have hm : DoFileMacro s f = (s, false) := by
      unfold DoFileMacro
      rw [hp]
      rfl
    exact ⟨hm, by rw [hm]⟩

/-- Witness for C2: a full stack rejects Push and DoFileMacro, an empty stack
rejects Pop, all without changing state. -/
theorem stack_bounds_witness :
    Push fullStackState = (fullStackState, false) ∧
    Pop initState = (initState, false) ∧
    DoFileMacro fullStackState ⟨0⟩ = (fullStackState, false) :=
  ⟨(stack_bounds fullStackState initState ⟨0⟩).1 (by decide),
   (stack_bounds fullStackState initState ⟨0⟩).2.1 (by decide),
   ((stack_bounds fullStackState initState ⟨0⟩).2.2 (by decide)).1⟩

/-- Claim C3: the pending move is a single-slot mailbox — while a staged move is
unconsumed, `SetUpMove` queues nothing and fails; and whenever `ReadMove`
returns a move it clears the move-available flag. -/
theorem move_mailbox (s : GCodesState) (gb : GCodeBuffer) :
    (s.moveAvailable = true → SetUpMove s gb = (s, false)) ∧
    ((ReadMove s).2.isSome = true → (ReadMove s).1.moveAvailable = false) := by
  constructor
  · intro h; unfold SetUpMove; rw [h]; simp
  · intro _
    unfold ReadMove
    by_cases h : s.moveAvailable
    · rw [if_pos h]
    · rw [if_neg h]; simpa using h

/-- Witness for C3 at a state with a pending move. -/
theorem move_mailbox_witness :
    SetUpMove movePendingState initBuffer = (movePendingState, false) ∧
    (ReadMove movePendingState).1.moveAvailable = false :=
  ⟨(move_mailbox movePendingState initBuffer).1 rfl,
   (move_mailbox movePendingState initBuffer).2 rfl⟩

/-- Claim C5: a move command that omits an axis letter leaves that axis's
per-drive active flag false in the staged move and holds its previous target
position rather than zeroing it; an axis whose letter is present (even with an
explicit zero value) gets its active flag set, so the two are distinguishable. -/
theorem omitted_axis_not_active (s : GCodesState) (gb : GCodeBuffer) (i : Nat)
    (hm : s.moveAvailable = false) (hi : i < AXES) :
    (Seen gb (axisLetter i) = false →
      (SetUpMove s gb).1.activeDrive i = false ∧
      (SetUpMove s gb).1.moveBuffer i = s.moveToDo i) ∧
    (Seen gb (axisLetter i) = true → (SetUpMove s gb).1.activeDrive i = true) := by
  unfold SetUpMove
  rw [hm]
  constructor
  · intro h
    constructor
    · simp [LoadMoveBufferFromGCode, hi, h]
    · simp [LoadMoveBufferFromGCode, hi, h]
  · intro h
    simp [LoadMoveBufferFromGCode, hi, h]

/-- Witness for C5: a line with no X field stages a move with the X drive
inactive and its target held. -/
theorem omitted_axis_not_active_witness :
    (SetUpMove initState initBuffer).1.activeDrive 0 = false ∧
    (SetUpMove initState initBuffer).1.moveBuffer 0 = initState.moveToDo 0 :=
  (omitted_axis_not_active initState initBuffer 0 rfl (by decide)).1 rfl

/-- Claim C8: a dispatcher tick on a state whose buffers all have their finished
flag still set (none re-armed) is a no-op on the whole machine state: only
buffers whose finished flag has been cleared and which hold a complete line are
polled. -/
theorem Spin_finished_noop (s : GCodesState)
    (h1 : s.webGCode.finished = true) (h2 : s.serialGCode.finished = true)
    (h3 : s.fileGCode.finished = true) (h4 : s.fileMacroGCode.finished = true) :
    Spin s = s := by
  unfold Spin chooseSource dispatchReady
  simp [h1, h2, h3, h4]

/-- Witness for C8 at the fresh state, whose buffers are all finished. -/
theorem Spin_finished_noop_witness : Spin initState = initState :=
  Spin_finished_noop initState rfl rfl rfl rfl

set_option maxRecDepth 10000 in
/-- While the endstop never triggers and the timeout has not yet elapsed, each
homing tick only counts one more waiting tick. -/
theorem homeSteps_counts (s : GCodesState) (a : Nat)
    (hsel : selectedHomeAxis s = some a) (hw : s.homeWaitTicks = 0) :
    ∀ n, n < HOME_TIMEOUT_TICKS →
      homeSteps (fun _ => false) s n =
        ({ s with homeWaitTicks := n }, ProcResult.inProgress) := by
  intro n
  induction n with
  | zero =>
    intro _
    show (s, ProcResult.inProgress) = _
    rw [← hw]
  | succ n ih =>
    intro hlt
    have hn : n < HOME_TIMEOUT_TICKS := Nat.lt_of_succ_lt hlt
    have hsel' : selectedHomeAxis { s with homeWaitTicks := n } = some a := hsel
    have hcond : ¬ (({ s with homeWaitTicks := n } : GCodesState).homeWaitTicks + 1 ≥
        HOME_TIMEOUT_TICKS) := by
      show ¬ (n + 1 ≥ HOME_TIMEOUT_TICKS)
      omega
    simp only [homeSteps, ih hn]
    unfold doHomeTick
    rw [hsel']
    simp only [Bool.false_eq_true, if_false]
    rw [if_neg hcond]

/-- Claim C6: a homing run whose endstop never triggers terminates within the
bounded tick budget with a ProcedureFault, and `GetAxisHasBeenHomed` for the
axis being homed remains false afterwards. -/
theorem home_endstop_never_fault (s : GCodesState) (a : Nat)
    (hsel : selectedHomeAxis s = some a) (hw : s.homeWaitTicks = 0)
    (hnh : s.axisHasBeenHomed a = false) :
    (homeSteps (fun _ => false) s HOME_TIMEOUT_TICKS).2 = ProcResult.fault ∧
    GetAxisHasBeenHomed (homeSteps (fun _ => false) s HOME_TIMEOUT_TICKS).1 a = false := by
  have h999 := homeSteps_counts s a hsel hw 999 (by norm_num [HOME_TIMEOUT_TICKS])
  have hstep : homeSteps (fun _ => false) s HOME_TIMEOUT_TICKS =
      doHomeTick { s with homeWaitTicks := 999 } false := by
    show homeSteps (fun _ => false) s (999 + 1) = _
    rw [homeSteps, h999]
  have hsel' : selectedHomeAxis { s with homeWaitTicks := 999 } = some a := hsel
  have hcond : ({ s with homeWaitTicks := 999 } : GCodesState).homeWaitTicks + 1 ≥
      HOME_TIMEOUT_TICKS := by
    show 999 + 1 ≥ HOME_TIMEOUT_TICKS
    norm_num [HOME_TIMEOUT_TICKS]
  rw [hstep]
  constructor
  · simp [doHomeTick, hsel', hcond]
  · simp [doHomeTick, hsel', hcond, GetAxisHasBeenHomed, hnh]

/-- Witness for C6: homing X from the fresh state with a dead endstop faults and
leaves X unhomed. -/
theorem home_endstop_never_fault_witness :
    (homeSteps (fun _ => false) homingState HOME_TIMEOUT_TICKS).2 = ProcResult.fault ∧
    GetAxisHasBeenHomed (homeSteps (fun _ => false) homingState HOME_TIMEOUT_TICKS).1 0
      = false :=
  home_endstop_never_fault homingState 0 rfl rfl rfl

/-- A probe trigger taken strictly before the last point of the series records
the coordinate and advances the counter, nothing else. -/
theorem trigger_mid (n : Nat) (p : ℚ × ℚ × ℚ) (s : GCodesState)
    (h0 : s.zProbesSet = false) (hlt : s.probeCount + 1 < n) :
    setBedEquationTrigger n p s =
      { s with probePoints := s.probePoints ++ [p], probeCount := s.probeCount + 1 } := by
  unfold setBedEquationTrigger
  rw [h0]
  simp only [Bool.false_eq_true, if_false]
  rw [if_neg (by omega)]

/-- The probe trigger that reaches the expected point count records the
coordinate and invokes the bed-equation computation on all recorded points. -/
theorem trigger_last (n : Nat) (p : ℚ × ℚ × ℚ) (s : GCodesState)
    (h0 : s.zProbesSet = false) (hge : s.probeCount + 1 ≥ n) :
    setBedEquationTrigger n p s =
      { s with probePoints := s.probePoints ++ [p], probeCount := s.probeCount + 1,
               zProbesSet := true, bedEquation := some (s.probePoints ++ [p]) } := by
  unfold setBedEquationTrigger
  rw [h0]
  simp only [Bool.false_eq_true, if_false]
  rw [if_pos hge]

/-- Feeding the remaining points of an `n`-point series, one trigger each,
records them all and computes the bed equation exactly on the last one. -/
theorem probeRun_fills (n : Nat) :
    ∀ (pts : List (ℚ × ℚ × ℚ)) (s : GCodesState), pts ≠ [] →
      s.zProbesSet = false → s.probeCount = s.probePoints.length →
      s.probePoints.length + pts.length = n →
      probeRun n s pts =
        { s with probePoints := s.probePoints ++ pts, probeCount := n,
                 zProbesSet := true, bedEquation := some (s.probePoints ++ pts) } := by
  intro pts
  induction pts with
  | nil => intro s h; exact absurd rfl h
  | cons p rest ih =>
    intro s _ h0 hc hlen
    cases rest with
    | nil =>
      have hn : s.probeCount + 1 = n := by
        rw [hc]
        simpa using hlen
      show setBedEquationTrigger n p s = _
      rw [trigger_last n p s h0 (by omega), hn]
    | cons q rest2 =>
      have hlt : s.probeCount + 1 < n := by
        rw [hc]
        simp only [List.length_cons] at hlen
        omega
      show probeRun n (setBedEquationTrigger n p s) (q :: rest2) = _
      rw [trigger_mid n p s h0 hlt]
      rw [ih { s with probePoints := s.probePoints ++ [p], probeCount := s.probeCount + 1 }
        (by simp) h0
        (by simp [hc])
        (by simp only [List.length_append, List.length_cons, List.length_nil] at hlen ⊢
            omega)]
      simp

/-- Claim C7: an N-point bed-probe sequence fed exactly N trigger events records
exactly N coordinates and only then invokes the bed-equation computation on
them, and an (N+1)-th spurious trigger leaves the recorded coordinates, the
computed equation, and the rest of the state unchanged. -/
theorem probe_exactly_n (n : Nat) (pts : List (ℚ × ℚ × ℚ)) (s : GCodesState)
    (extra : ℚ × ℚ × ℚ)
    (h0 : s.zProbesSet = false) (hc : s.probeCount = 0) (hp : s.probePoints = [])
    (hlen : pts.length = n) (hne : pts ≠ []) :
    (probeRun n s pts).probePoints = pts ∧
    (probeRun n s pts).probeCount = n ∧
    (probeRun n s pts).bedEquation = some pts ∧
    setBedEquationTrigger n extra (probeRun n s pts) = probeRun n s pts := by
  have hfill := probeRun_fills n pts s hne h0 (by rw [hc, hp]; rfl)
    (by rw [hp]; simpa using hlen)
  rw [hfill]
  refine ⟨by simp [hp], by simp, by simp [hp], ?_⟩
  unfold setBedEquationTrigger
  simp

/-- Witness for C7: a three-point probe sequence records its three coordinates
and computes the bed equation from exactly those. -/
theorem probe_exactly_n_witness :
    (probeRun 3 initState [(0, 0, 1), (10, 0, 1), (0, 10, 1)]).probePoints =
      [(0, 0, 1), (10, 0, 1), (0, 10, 1)] ∧
    (probeRun 3 initState [(0, 0, 1), (10, 0, 1), (0, 10, 1)]).bedEquation =
      some [(0, 0, 1), (10, 0, 1), (0, 10, 1)] :=
  ⟨(probe_exactly_n 3 [(0, 0, 1), (10, 0, 1), (0, 10, 1)] initState (5, 5, 2)
      rfl rfl rfl rfl (by simp)).1,
   (probe_exactly_n 3 [(0, 0, 1), (10, 0, 1), (0, 10, 1)] initState (5, 5, 2)
      rfl rfl rfl rfl (by simp)).2.2.1⟩

/-! Character-class facts, decided by evaluation. -/

theorem digitChar_isDigit : ∀ d : Fin 10, (digitChar d).isDigit = true := by decide

theorem digitChar_toNat : ∀ d : Fin 10, (digitChar d).toNat = 48 + d.val := by decide

theorem digitChar_isNum : ∀ d : Fin 10, isNumChar (digitChar d) = true := by decide

theorem digitChar_notKey : ∀ d : Fin 10, isKeyChar (digitChar d) = false := by decide

theorem digitChar_ne_colon : ∀ d : Fin 10, digitChar d ≠ ':' := by decide

theorem digitChar_ne_star : ∀ d : Fin 10, digitChar d ≠ '*' := by decide

theorem digitChar_ne_nl : ∀ d : Fin 10, digitChar d ≠ '\n' := by decide

theorem digitChar_ne_semi : ∀ d : Fin 10, digitChar d ≠ ';' := by decide

/-- Two characters on opposite sides of the key-letter class are distinct. -/
theorem keyChar_ne (k c : Char) (h1 : isKeyChar k = true) (h2 : isKeyChar c = false) :
    k ≠ c := by
  intro he
  rw [he, h2] at h1
  exact Bool.noConfusion h1

/-! Generic facts about takeWhile, dropWhile and the key-letter scan. -/

theorem takeWhile_all (p : Char → Bool) :
    ∀ l : List Char, (∀ c ∈ l, p c = true) → l.takeWhile p = l := by
  intro l
  induction l with
  | nil => intro _; rfl
  | cons c t ih =>
    intro h
    simp only [List.takeWhile_cons, h c (List.mem_cons_self c t), if_true]
    rw [ih (fun x hx => h x (List.mem_cons_of_mem c hx))]

theorem takeWhile_none (p : Char → Bool) (l : List Char)
    (h : ∀ c, l.head? = some c → p c = false) : l.takeWhile p = [] := by
  cases l with
  | nil => rfl
  | cons c t => simp [List.takeWhile_cons, h c rfl]

theorem takeWhile_append_stop (p : Char → Bool) :
    ∀ xs ys : List Char, (∀ c ∈ xs, p c = true) → ys.takeWhile p = [] →
      (xs ++ ys).takeWhile p = xs := by
  intro xs
  induction xs with
  | nil => intro ys _ hy; simpa using hy
  | cons c t ih =>
    intro ys h hy
    simp only [List.cons_append, List.takeWhile_cons, h c (List.mem_cons_self c t), if_true]
    rw [ih ys (fun x hx => h x (List.mem_cons_of_mem c hx)) hy]

theorem dropWhile_append_stop (p : Char → Bool) :
    ∀ xs ys : List Char, (∀ c ∈ xs, p c = true) → ys.takeWhile p = [] →
      (xs ++ ys).dropWhile p = ys := by
  intro xs
  induction xs with
  | nil =>
    intro ys _ hy
    cases ys with
    | nil => rfl
    | cons c t =>
      by_cases hc : p c = true
      · rw [List.takeWhile_cons, if_pos hc] at hy
        exact absurd hy (by simp)
      · simp only [List.nil_append, List.dropWhile_cons]
        rw [if_neg (by simpa using hc)]
  | cons c t ih =>
    intro ys h hy
    simp only [List.cons_append, List.dropWhile_cons, h c (List.mem_cons_self c t), if_true]
    exact ih ys (fun x hx => h x (List.mem_cons_of_mem c hx)) hy

theorem afterKey_skip (k : Char) :
    ∀ xs ys : List Char, (∀ c ∈ xs, c ≠ k) → afterKey (xs ++ ys) k = afterKey ys k := by
  intro xs
  induction xs with
  | nil => intro ys _; rfl
  | cons c t ih =>
    intro ys h
    simp only [List.cons_append, afterKey]
    rw [if_neg (h c (List.mem_cons_self c t))]
    exact ih ys (fun x hx => h x (List.mem_cons_of_mem c hx))

theorem afterKey_cons_self (k : Char) (rest : List Char) :
    afterKey (k :: rest) k = some rest := by
  simp [afterKey]

theorem contains_mid (xs ys : List Char) (c : Char) : (xs ++ c :: ys).contains c = true := by
  induction xs with
  | nil => simp [List.contains_cons]
  | cons d t ih => simp [List.contains_cons, ih]

/-! Character membership in rendered literals and lines. -/

theorem mem_fracRender (fds : List (Fin 10)) (c : Char) (h : c ∈ fracRender fds) :
    c = '.' ∨ ∃ d, c = digitChar d := by
  unfold fracRender at h
  by_cases he : fds.isEmpty = true
  · rw [if_pos he] at h
    exact absurd h (List.not_mem_nil c)
  · rw [if_neg he] at h
    rcases List.mem_cons.mp h with h1 | h2
    · exact Or.inl h1
    · obtain ⟨d, _, hd⟩ := List.mem_map.mp h2
      exact Or.inr ⟨d, hd.symm⟩

theorem mem_renderNumLit (v : NumLit) (c : Char) (h : c ∈ renderNumLit v) :
    c = '-' ∨ c = '.' ∨ ∃ d, c = digitChar d := by
  unfold renderNumLit at h
  rcases List.mem_append.mp h with h1 | h2
  · rcases List.mem_append.mp h1 with h3 | h4
    · by_cases hn : v.neg = true
      · rw [if_pos hn] at h3
        rcases List.mem_cons.mp h3 with h5 | h5
        · exact Or.inl h5
        · exact absurd h5 (List.not_mem_nil c)
      · rw [if_neg hn] at h3
        exact absurd h3 (List.not_mem_nil c)
    · obtain ⟨d, _, hd⟩ := List.mem_map.mp h4
      exact Or.inr (Or.inr ⟨d, hd.symm⟩)
  · rcases mem_fracRender _ _ h2 with h3 | h3
    · exact Or.inr (Or.inl h3)
    · exact Or.inr (Or.inr h3)

theorem mem_renderVec :
    ∀ (vs : List NumLit) (c : Char), c ∈ renderVec vs →
      c = ':' ∨ c = '-' ∨ c = '.' ∨ ∃ d, c = digitChar d := by
  intro vs
  induction vs with
  | nil => intro c hc; exact absurd hc (List.not_mem_nil c)
  | cons v rest ih =>
    intro c hc
    cases rest with
    | nil =>
      have h2 : c ∈ renderNumLit v := hc
      have h3 := mem_renderNumLit v c h2
      tauto
    | cons w rest2 =>
      have h2 : c ∈ renderNumLit v ++ ':' :: renderVec (w :: rest2) := hc
      rcases List.mem_append.mp h2 with h3 | h3
      · have h4 := mem_renderNumLit v c h3
        tauto
      · rcases List.mem_cons.mp h3 with h4 | h4
        · exact Or.inl h4
        · exact ih c h4

theorem mem_renderFieldVal (fv : FieldVal) (c : Char) (h : c ∈ renderFieldVal fv) :
    c = ':' ∨ c = '-' ∨ c = '.' ∨ ∃ d, c = digitChar d := by
  cases fv with
  | num v =>
    have h1 := mem_renderNumLit v c h
    tauto
  | vec vs => exact mem_renderVec vs c h

theorem mem_renderFields :
    ∀ (fields : List (Char × FieldVal)) (c : Char),
      (∀ kv ∈ fields, isKeyChar kv.1 = true) → c ∈ renderFields fields →
      isKeyChar c = true ∨ c = ' ' ∨ c = ':' ∨ c = '-' ∨ c = '.' ∨ ∃ d, c = digitChar d := by
  intro fields
  induction fields with
  | nil => intro c _ hc; exact absurd hc (List.not_mem_nil c)
  | cons f rest ih =>
    intro c hkeys hc
    have h2 : c ∈ (f.1 :: renderFieldVal f.2) ++ ' ' :: renderFields rest := hc
    rcases List.mem_append.mp h2 with h3 | h3
    · rcases List.mem_cons.mp h3 with h4 | h4
      · exact Or.inl (h4 ▸ hkeys f (List.mem_cons_self f rest))
      · have h5 := mem_renderFieldVal f.2 c h4
        tauto
    · rcases List.mem_cons.mp h3 with h4 | h4
      · exact Or.inr (Or.inl h4)
      · exact ih c (fun kv hkv => hkeys kv (List.mem_cons_of_mem f hkv)) h4

/-! Parsing a rendered digit run gives back its value. -/

theorem foldl_digits (ds : List (Fin 10)) :
    ∀ a : Nat,
      (ds.map digitChar).foldl (fun a c => 10 * a + (c.toNat - 48)) a =
        ds.foldl (fun a d => 10 * a + d.val) a := by
  induction ds with
  | nil => intro a; rfl
  | cons d t ih =>
    intro a
    simp only [List.map_cons, List.foldl_cons]
    rw [show (digitChar d).toNat - 48 = d.val from by rw [digitChar_toNat d]; omega]
    exact ih _

theorem natOfCharDigits_map (ds : List (Fin 10)) :
    natOfCharDigits (ds.map digitChar) = natOfDigitsF ds :=
  foldl_digits ds 0

theorem parseNatDigits_map (ds : List (Fin 10)) (h : ds ≠ []) :
    parseNatDigits (ds.map digitChar) = some (natOfDigitsF ds) := by
  unfold parseNatDigits
  have he : (ds.map digitChar).isEmpty = false := by
    cases ds with
    | nil => exact absurd rfl h
    | cons d t => rfl
  rw [he]
  have ha : (ds.map digitChar).all Char.isDigit = true := by
    rw [List.all_eq_true]
    intro c hc
    obtain ⟨d, _, hd⟩ := List.mem_map.mp hc
    rw [← hd]
    exact digitChar_isDigit d
  rw [ha]
  simp [natOfCharDigits_map]

theorem digits_all_isDigit (ds : List (Fin 10)) :
    ∀ c ∈ ds.map digitChar, Char.isDigit c = true := by
  intro c hc
  obtain ⟨d, _, hd⟩ := List.mem_map.mp hc
  rw [← hd]
  exact digitChar_isDigit d

/-- The fractional render followed by a non-digit stop contains no leading
digits. -/
theorem frac_rest_stop (fds : List (Fin 10)) (rest : List Char)
    (hrest : ∀ c, rest.head? = some c → c.isDigit = false) :
    (fracRender fds ++ rest).takeWhile Char.isDigit = [] := by
  cases fds with
  | nil =>
    simp only [fracRender, List.isEmpty_nil, if_true, List.nil_append]
    exact takeWhile_none _ rest hrest
  | cons f t =>
    have h1 : fracRender (f :: t) = '.' :: (f :: t).map digitChar := rfl
    rw [h1]
    simp [List.takeWhile_cons]

theorem parseUQ_render (iD fD : List (Fin 10)) (rest : List Char)
    (hrest : ∀ c, rest.head? = some c → c.isDigit = false ∧ c ≠ '.') :
    parseUQPrefix (iD.map digitChar ++ fracRender fD ++ rest) =
      (natOfDigitsF iD : ℚ) + (natOfDigitsF fD : ℚ) / (10 : ℚ) ^ fD.length := by
  cases fD with
  | nil =>
    have h1 : fracRender ([] : List (Fin 10)) = [] := rfl
    rw [h1, List.append_nil]
    simp only [parseUQPrefix]
    rw [takeWhile_append_stop Char.isDigit _ _ (digits_all_isDigit iD)
      (takeWhile_none _ rest (fun c hc => (hrest c hc).1))]
    rw [dropWhile_append_stop Char.isDigit _ _ (digits_all_isDigit iD)
      (takeWhile_none _ rest (fun c hc => (hrest c hc).1))]
    rw [if_neg (fun hh => (hrest '.' hh).2 rfl)]
    rw [natOfCharDigits_map]
    norm_num [natOfCharDigits, natOfDigitsF]
  | cons f ft =>
    have h1 : fracRender (f :: ft) = '.' :: (f :: ft).map digitChar := rfl
    rw [h1, List.append_assoc]
    have hstop : ('.' :: ((f :: ft).map digitChar ++ rest)).takeWhile Char.isDigit = [] := by
      simp [List.takeWhile_cons]
    simp only [parseUQPrefix, List.cons_append]
    rw [takeWhile_append_stop Char.isDigit _ _ (digits_all_isDigit iD) hstop]
    rw [dropWhile_append_stop Char.isDigit _ _ (digits_all_isDigit iD) hstop]
    rw [if_pos (show ('.' :: ((f :: ft).map digitChar ++ rest)).head? = some '.' from rfl)]
    simp only [List.tail_cons]
    rw [takeWhile_append_stop Char.isDigit _ _ (digits_all_isDigit (f :: ft))
      (takeWhile_none _ rest (fun c hc => (hrest c hc).1))]
    rw [natOfCharDigits_map, natOfCharDigits_map, List.length_map]

theorem digitChar_ne_dash : ∀ d : Fin 10, digitChar d ≠ '-' := by decide

/-- The head of a rendered unsigned literal followed by a guarded remainder is
never a minus sign. -/
theorem head_not_dash (iD fD : List (Fin 10)) (rest : List Char)
    (hrest : ∀ c, rest.head? = some c → c ≠ '-') :
    ¬ ((iD.map digitChar ++ fracRender fD ++ rest).head? = some '-') := by
  cases iD with
  | cons d t =>
    intro hh
    simp only [List.map_cons, List.cons_append, List.head?_cons, Option.some.injEq] at hh
    exact digitChar_ne_dash d hh
  | nil =>
    cases fD with
    | nil =>
      intro hh
      rw [show fracRender ([] : List (Fin 10)) = [] from rfl] at hh
      simp only [List.map_nil, List.nil_append, List.append_nil] at hh
      exact hrest '-' hh rfl
    | cons f ft =>
      intro hh
      rw [show fracRender (f :: ft) = '.' :: (f :: ft).map digitChar from rfl] at hh
      simp only [List.map_nil, List.nil_append, List.cons_append, List.head?_cons,
        Option.some.injEq] at hh
      exact absurd hh (by decide)

theorem parseQPrefix_render (v : NumLit) (rest : List Char)
    (hrest : ∀ c, rest.head? = some c → c.isDigit = false ∧ c ≠ '.' ∧ c ≠ '-') :
    parseQPrefix (renderNumLit v ++ rest) = numLitVal v := by
  have hUQ := parseUQ_render v.intDigits v.fracDigits rest
    (fun c hc => ⟨(hrest c hc).1, (hrest c hc).2.1⟩)
  by_cases hneg : v.neg = true
  · have hr : renderNumLit v ++ rest =
        '-' :: (v.intDigits.map digitChar ++ fracRender v.fracDigits ++ rest) := by
      simp [renderNumLit, hneg, List.append_assoc]
    rw [hr]
    have h2 : parseQPrefix
        ('-' :: (v.intDigits.map digitChar ++ fracRender v.fracDigits ++ rest)) =
        -(parseUQPrefix (v.intDigits.map digitChar ++ fracRender v.fracDigits ++ rest)) := by
      simp [parseQPrefix]
    rw [h2, hUQ]
    simp [numLitVal, hneg]
  · have hr : renderNumLit v ++ rest =
        v.intDigits.map digitChar ++ fracRender v.fracDigits ++ rest := by
      simp [renderNumLit, hneg, List.append_assoc]
    rw [hr]
    have hnd := head_not_dash v.intDigits v.fracDigits rest (fun c hc => (hrest c hc).2.2)
    have h2 : parseQPrefix (v.intDigits.map digitChar ++ fracRender v.fracDigits ++ rest) =
        parseUQPrefix (v.intDigits.map digitChar ++ fracRender v.fracDigits ++ rest) := by
      simp only [parseQPrefix]
      rw [if_neg hnd]
    rw [h2, hUQ]
    simp [numLitVal, hneg]

theorem parseIntPrefix_render (v : NumLit) (rest : List Char)
    (hrest : ∀ c, rest.head? = some c → c.isDigit = false ∧ c ≠ '-') :
    parseIntPrefix (renderNumLit v ++ rest) = numLitIntVal v := by
  have htake : (v.intDigits.map digitChar ++
      (fracRender v.fracDigits ++ rest)).takeWhile Char.isDigit =
      v.intDigits.map digitChar :=
    takeWhile_append_stop _ _ _ (digits_all_isDigit _)
      (frac_rest_stop _ _ (fun c hc => (hrest c hc).1))
  by_cases hneg : v.neg = true
  · have hr : renderNumLit v ++ rest =
        '-' :: (v.intDigits.map digitChar ++ (fracRender v.fracDigits ++ rest)) := by
      simp [renderNumLit, hneg, List.append_assoc]
    rw [hr]
    have h2 : parseIntPrefix
        ('-' :: (v.intDigits.map digitChar ++ (fracRender v.fracDigits ++ rest))) =
        -(natOfCharDigits ((v.intDigits.map digitChar ++
          (fracRender v.fracDigits ++ rest)).takeWhile Char.isDigit) : Int) := by
      simp [parseIntPrefix]
    rw [h2, htake, natOfCharDigits_map]
    simp [numLitIntVal, hneg]
  · have hr : renderNumLit v ++ rest =
        v.intDigits.map digitChar ++ (fracRender v.fracDigits ++ rest) := by
      simp [renderNumLit, hneg, List.append_assoc]
    rw [hr]
    have hnd := head_not_dash v.intDigits v.fracDigits rest (fun c hc => (hrest c hc).2)
    have hnd' : ¬ ((v.intDigits.map digitChar ++
        (fracRender v.fracDigits ++ rest)).head? = some '-') := by
      rw [← List.append_assoc]
      exact hnd
    have h2 : parseIntPrefix (v.intDigits.map digitChar ++
        (fracRender v.fracDigits ++ rest)) =
        (natOfCharDigits ((v.intDigits.map digitChar ++
          (fracRender v.fracDigits ++ rest)).takeWhile Char.isDigit) : Int) := by
      simp only [parseIntPrefix]
      rw [if_neg hnd']
    rw [h2, htake, natOfCharDigits_map]
    simp [numLitIntVal, hneg]

/-! Splitting a rendered vector at its colons gives back the literals. -/

theorem splitOnColon_ne_nil : ∀ cs : List Char, splitOnColon cs ≠ [] := by
  intro cs
  induction cs with
  | nil => simp [splitOnColon]
  | cons c t ih =>
    by_cases hc : c = ':'
    · simp [splitOnColon, hc]
    · cases hsp : splitOnColon t with
      | nil => exact absurd hsp ih
      | cons x xs => simp [splitOnColon, hc, hsp]

theorem splitOnColon_cons_ne (c : Char) (t : List Char) (hc : ¬ (c = ':')) :
    splitOnColon (c :: t) = (c :: (splitOnColon t).headD []) :: (splitOnColon t).tail := by
  cases hsp : splitOnColon t with
  | nil => exact absurd hsp (splitOnColon_ne_nil t)
  | cons x xs => simp [splitOnColon, hc, hsp]

theorem splitOnColon_colon (t : List Char) :
    splitOnColon (':' :: t) = [] :: splitOnColon t := by
  simp [splitOnColon]

theorem splitOnColon_noColon :
    ∀ xs : List Char, (∀ c ∈ xs, ¬ (c = ':')) → splitOnColon xs = [xs] := by
  intro xs
  induction xs with
  | nil => intro _; rfl
  | cons c t ih =>
    intro h
    rw [splitOnColon_cons_ne c t (h c (List.mem_cons_self c t)),
      ih (fun x hx => h x (List.mem_cons_of_mem c hx))]
    rfl

theorem splitOnColon_append (xs ys : List Char) (hx : ∀ c ∈ xs, ¬ (c = ':')) :
    splitOnColon (xs ++ ys) =
      (xs ++ (splitOnColon ys).headD []) :: (splitOnColon ys).tail := by
  induction xs with
  | nil =>
    cases hsp : splitOnColon ys with
    | nil => exact absurd hsp (splitOnColon_ne_nil ys)
    | cons x xs2 => simp [hsp]
  | cons c t ih =>
    rw [List.cons_append, splitOnColon_cons_ne c (t ++ ys) (hx c (List.mem_cons_self c t)),
      ih (fun x hxm => hx x (List.mem_cons_of_mem c hxm))]
    simp

theorem renderNumLit_noColon (v : NumLit) : ∀ c ∈ renderNumLit v, ¬ (c = ':') := by
  intro c hc he
  rcases mem_renderNumLit v c hc with h | h | ⟨d, h⟩
  · rw [he] at h; exact absurd h (by decide)
  · rw [he] at h; exact absurd h (by decide)
  · rw [he] at h; exact digitChar_ne_colon d h.symm

theorem splitOnColon_renderVec :
    ∀ vs : List NumLit, vs ≠ [] → splitOnColon (renderVec vs) = vs.map renderNumLit := by
  intro vs
  induction vs with
  | nil => intro h; exact absurd rfl h
  | cons v rest ih =>
    intro _
    cases rest with
    | nil =>
      show splitOnColon (renderNumLit v) = [renderNumLit v]
      exact splitOnColon_noColon _ (renderNumLit_noColon v)
    | cons w rest2 =>
      show splitOnColon (renderNumLit v ++ ':' :: renderVec (w :: rest2)) = _
      rw [splitOnColon_append _ _ (renderNumLit_noColon v), splitOnColon_colon,
        ih (by simp)]
      simp

/-! Feeding characters and finalizing a line. -/

theorem put_newline (b : GCodeBuffer) : put b '\n' = finalizeLine b := by
  simp [put]

theorem putLine_gcodeBuffer :
    ∀ (cs : List Char) (b : GCodeBuffer), (∀ c ∈ cs, c ≠ '\n') →
      b.gcodeBuffer.length + cs.length ≤ GCODE_LENGTH - 1 →
      (putLine b cs).gcodeBuffer = b.gcodeBuffer ++ cs := by
  intro cs
  induction cs with
  | nil => intro b _ _; simp [putLine]
  | cons c t ih =>
    intro b h hlen
    have hc : ¬ (c = '\n') := h c (List.mem_cons_self c t)
    have hnotfull : ¬ (b.gcodeBuffer.length ≥ GCODE_LENGTH - 1) := by
      simp only [GCODE_LENGTH] at hlen ⊢
      simp only [List.length_cons] at hlen
      omega
    show (putLine (put b c).1 t).gcodeBuffer = _
    rw [show (put b c).1 = { b with
          gcodeBuffer := b.gcodeBuffer ++ [c],
          inComment := b.inComment || decide (c = ';') } from by
        unfold put
        rw [if_neg hc, if_neg hnotfull]]
    rw [ih _ (fun x hx => h x (List.mem_cons_of_mem c hx)) (by
      simp only [List.length_append, List.length_cons, List.length_nil]
      simp only [List.length_cons] at hlen
      omega)]
    simp

theorem putLine_keeps_flags :
    ∀ (cs : List Char) (b : GCodeBuffer), (∀ c ∈ cs, c ≠ '\n') →
      (putLine b cs).finished = b.finished ∧ (putLine b cs).ready = b.ready ∧
      (putLine b cs).resendRequested = b.resendRequested := by
  intro cs
  induction cs with
  | nil => intro b _; exact ⟨rfl, rfl, rfl⟩
  | cons c t ih =>
    intro b h
    have hc : ¬ (c = '\n') := h c (List.mem_cons_self c t)
    show (putLine (put b c).1 t).finished = _ ∧ _ ∧ _
    have hput : ((put b c).1.finished = b.finished ∧ (put b c).1.ready = b.ready ∧
        (put b c).1.resendRequested = b.resendRequested) := by
      unfold put
      rw [if_neg hc]
      by_cases hfull : b.gcodeBuffer.length ≥ GCODE_LENGTH - 1
      · rw [if_pos hfull]
        exact ⟨rfl, rfl, rfl⟩
      · rw [if_neg hfull]
        exact ⟨rfl, rfl, rfl⟩
    have hrec := ih (put b c).1 (fun x hx => h x (List.mem_cons_of_mem c hx))
    exact ⟨hrec.1.trans hput.1, hrec.2.1.trans hput.2.1, hrec.2.2.trans hput.2.2⟩

/-- Finalizing a line whose checksum suffix carries the correct value strips
the suffix, excludes any comment, and reports a complete line. -/
theorem finalizeLine_valid (b : GCodeBuffer) (body : List Char) (sup : List (Fin 10))
    (hgb : b.gcodeBuffer = body ++ '*' :: sup.map digitChar)
    (hbody : ∀ c ∈ body, c ≠ '*') (hsup : sup ≠ [])
    (hck : natOfDigitsF sup = CheckSum (body ++ '*' :: sup.map digitChar)) :
    finalizeLine b = ({ b with
        gcodeBuffer := stripComment body,
        inComment := false,
        finished := false,
        ready := true,
        resendRequested := none }, true) := by
  have hstar : ∀ c ∈ body, (fun c => decide ¬(c = '*')) c = true := by
    intro c hc
    simp [hbody c hc]
  have hstop : ('*' :: sup.map digitChar).takeWhile (fun c => decide ¬(c = '*')) = [] := by
    simp [List.takeWhile_cons]
  have htake := takeWhile_append_stop _ body ('*' :: sup.map digitChar) hstar hstop
  have hdrop := dropWhile_append_stop _ body ('*' :: sup.map digitChar) hstar hstop
  have hcontains := contains_mid body (sup.map digitChar) '*'
  unfold finalizeLine
  rw [hgb, if_pos hcontains, htake, hdrop, List.tail_cons, parseNatDigits_map sup hsup]
  dsimp only
  rw [if_pos hck]

/-- Finalizing a line whose checksum suffix carries a wrong value flags a resend
request naming the line's leading `N` number and reports no complete line. -/
theorem finalizeLine_mismatch (b : GCodeBuffer) (body : List Char) (sup : List (Fin 10))
    (hgb : b.gcodeBuffer = body ++ '*' :: sup.map digitChar)
    (hbody : ∀ c ∈ body, c ≠ '*') (hsup : sup ≠ [])
    (hck : ¬ (natOfDigitsF sup = CheckSum (body ++ '*' :: sup.map digitChar))) :
    finalizeLine b = ({ b with
        gcodeBuffer := [],
        inComment := false,
        ready := false,
        resendRequested := some (lineNumberOf body) }, false) := by
  have hstar : ∀ c ∈ body, (fun c => decide ¬(c = '*')) c = true := by
    intro c hc
    simp [hbody c hc]
  have hstop : ('*' :: sup.map digitChar).takeWhile (fun c => decide ¬(c = '*')) = [] := by
    simp [List.takeWhile_cons]
  have htake := takeWhile_append_stop _ body ('*' :: sup.map digitChar) hstar hstop
  have hdrop := dropWhile_append_stop _ body ('*' :: sup.map digitChar) hstar hstop
  have hcontains := contains_mid body (sup.map digitChar) '*'
  unfold finalizeLine
  rw [hgb, if_pos hcontains, htake, hdrop, List.tail_cons, parseNatDigits_map sup hsup]
  dsimp only
  rw [if_neg hck]

/-- Claim C1: for every command line carrying a checksum suffix whose value
differs from the exclusive-or (masked to 8 bits) of the preceding characters,
finalizing the line on its terminator reports no complete line, the buffer is
left in a state the Dispatcher never polls (so the command is never
dispatched), and a resend request naming the line's `N` number is recorded. -/
theorem checksum_mismatch_resend (num : List (Fin 10)) (cmd : List Char)
    (sup : List (Fin 10))
    (hcmd : ∀ c ∈ cmd, c ≠ '\n' ∧ c ≠ '*')
    (hhead : ∀ c, cmd.head? = some c → c.isDigit = false)
    (hsup : sup ≠ [])
    (hlen : 2 + num.length + cmd.length + sup.length ≤ GCODE_LENGTH - 1)
    (hck : ¬ (natOfDigitsF sup =
      CheckSum (('N' :: (num.map digitChar ++ cmd)) ++ '*' :: sup.map digitChar))) :
    (put (putLine initBuffer
        (('N' :: (num.map digitChar ++ cmd)) ++ '*' :: sup.map digitChar)) '\n').2 = false ∧
    (put (putLine initBuffer
        (('N' :: (num.map digitChar ++ cmd)) ++ '*' :: sup.map digitChar)) '\n').1.resendRequested
      = some (natOfDigitsF num) ∧
    dispatchReady (put (putLine initBuffer
        (('N' :: (num.map digitChar ++ cmd)) ++ '*' :: sup.map digitChar)) '\n').1 = false := by
  have hnl : ∀ c ∈ ('N' :: (num.map digitChar ++ cmd)) ++ '*' :: sup.map digitChar,
      c ≠ '\n' := by
    intro c hc
    rcases List.mem_append.mp hc with h1 | h2
    · rcases List.mem_cons.mp h1 with h3 | h3
      · rw [h3]; decide
      · rcases List.mem_append.mp h3 with h4 | h4
        · obtain ⟨d, _, hd⟩ := List.mem_map.mp h4
          rw [← hd]
          exact digitChar_ne_nl d
        · exact (hcmd c h4).1
    · rcases List.mem_cons.mp h2 with h3 | h3
      · rw [h3]; decide
      · obtain ⟨d, _, hd⟩ := List.mem_map.mp h3
        rw [← hd]
        exact digitChar_ne_nl d
  have hgb : (putLine initBuffer
      (('N' :: (num.map digitChar ++ cmd)) ++ '*' :: sup.map digitChar)).gcodeBuffer =
      ('N' :: (num.map digitChar ++ cmd)) ++ '*' :: sup.map digitChar := by
    rw [putLine_gcodeBuffer _ initBuffer hnl (by
      simp only [initBuffer, List.length_nil, List.length_append, List.length_cons,
        List.length_map, GCODE_LENGTH] at hlen ⊢
      omega)]
    simp [initBuffer]
  have hbody : ∀ c ∈ 'N' :: (num.map digitChar ++ cmd), c ≠ '*' := by
    intro c hc
    rcases List.mem_cons.mp hc with h3 | h3
    · rw [h3]; decide
    · rcases List.mem_append.mp h3 with h4 | h4
      · obtain ⟨d, _, hd⟩ := List.mem_map.mp h4
        rw [← hd]
        exact digitChar_ne_star d
      · exact (hcmd c h4).2
  have hfin := finalizeLine_mismatch _ ('N' :: (num.map digitChar ++ cmd)) sup hgb
    hbody hsup hck
  have hlineno : lineNumberOf ('N' :: (num.map digitChar ++ cmd)) = natOfDigitsF num := by
    unfold lineNumberOf
    rw [if_pos (show ('N' :: (num.map digitChar ++ cmd)).head? = some 'N' from rfl)]
    simp only [List.tail_cons]
    rw [takeWhile_append_stop Char.isDigit _ _ (digits_all_isDigit num)
      (takeWhile_none _ cmd hhead)]
    exact natOfCharDigits_map num
  rw [put_newline, hfin]
  refine ⟨rfl, ?_, ?_⟩
  · show some (lineNumberOf ('N' :: (num.map digitChar ++ cmd))) = some (natOfDigitsF num)
    rw [hlineno]
  · simp [dispatchReady]

/-- Witness for C1: the line `N3 G1 X10*00` carries checksum 0 where 82 is
expected, so it is not completed, not dispatchable, and requests a resend of
line 3. -/
theorem checksum_mismatch_resend_witness :
    (put (putLine initBuffer
        (('N' :: (([3] : List (Fin 10)).map digitChar ++
          [' ', 'G', '1', ' ', 'X', '1', '0'])) ++ '*' ::
          ([0, 0] : List (Fin 10)).map digitChar)) '\n').2 = false ∧
    (put (putLine initBuffer
        (('N' :: (([3] : List (Fin 10)).map digitChar ++
          [' ', 'G', '1', ' ', 'X', '1', '0'])) ++ '*' ::
          ([0, 0] : List (Fin 10)).map digitChar)) '\n').1.resendRequested
      = some (natOfDigitsF [3]) ∧
    dispatchReady (put (putLine initBuffer
        (('N' :: (([3] : List (Fin 10)).map digitChar ++
          [' ', 'G', '1', ' ', 'X', '1', '0'])) ++ '*' ::
          ([0, 0] : List (Fin 10)).map digitChar)) '\n').1 = false :=
  checksum_mismatch_resend [3] [' ', 'G', '1', ' ', 'X', '1', '0'] [0, 0]
    (by decide)
    (by
      intro c hc
      simp only [List.head?_cons, Option.some.injEq] at hc
      rw [← hc]
      decide)
    (by decide) (by decide) (by decide)

/-- No character of a rendered line equals a given non-key, non-separator
character. -/
theorem renderFields_ne (fields : List (Char × FieldVal))
    (hkeys : ∀ kv ∈ fields, isKeyChar kv.1 = true) (x : Char)
    (hx : isKeyChar x = false) (h1 : ¬ (x = ' ')) (h2 : ¬ (x = ':'))
    (h3 : ¬ (x = '-')) (h4 : ¬ (x = '.')) (h5 : ∀ d : Fin 10, digitChar d ≠ x) :
    ∀ c ∈ renderFields fields, c ≠ x := by
  intro c hc he
  subst he
  rcases mem_renderFields fields c hkeys hc with h | h | h | h | h | ⟨d, h⟩
  · rw [hx] at h
    exact Bool.noConfusion h
  · exact h1 h
  · exact h2 h
  · exact h3 h
  · exact h4 h
  · exact h5 d h.symm

theorem renderFieldVal_notKey (fv : FieldVal) :
    ∀ c ∈ renderFieldVal fv, isKeyChar c = false := by
  intro c hc
  rcases mem_renderFieldVal fv c hc with h | h | h | ⟨d, h⟩
  · rw [h]; decide
  · rw [h]; decide
  · rw [h]; decide
  · rw [h]; exact digitChar_notKey d

/-- Scanning a rendered line for one of its key letters lands right after that
key, whatever the order of the fields. -/
theorem afterKey_renderFields :
    ∀ (fields : List (Char × FieldVal)) (k : Char) (fv : FieldVal),
      (k, fv) ∈ fields → (fields.map Prod.fst).Nodup →
      (∀ kv ∈ fields, isKeyChar kv.1 = true) →
      ∃ rest, afterKey (renderFields fields) k = some (renderFieldVal fv ++ ' ' :: rest) := by
  intro fields
  induction fields with
  | nil => intro k fv hm _ _; exact absurd hm (List.not_mem_nil _)
  | cons f rest ih =>
    intro k fv hm hnd hkeys
    rcases List.mem_cons.mp hm with heq | hmem
    · refine ⟨renderFields rest, ?_⟩
      show afterKey ((f.1 :: renderFieldVal f.2) ++ ' ' :: renderFields rest) k = _
      rw [List.cons_append, ← heq]
      show afterKey (k :: (renderFieldVal fv ++ ' ' :: renderFields rest)) k = _
      rw [afterKey_cons_self]
    · have hk : isKeyChar k = true := hkeys (k, fv) (List.mem_cons_of_mem f hmem)
      have hf1k : ¬ (f.1 = k) := by
        have h1 : f.1 ∉ rest.map Prod.fst := by
          rw [List.map_cons] at hnd
          exact (List.nodup_cons.mp hnd).1
        have h2 : k ∈ rest.map Prod.fst := List.mem_map.mpr ⟨(k, fv), hmem, rfl⟩
        intro he
        rw [he] at h1
        exact h1 h2
      obtain ⟨r, hr⟩ := ih k fv hmem
        (by rw [List.map_cons] at hnd; exact (List.nodup_cons.mp hnd).2)
        (fun kv hkv => hkeys kv (List.mem_cons_of_mem f hkv))
      refine ⟨r, ?_⟩
      show afterKey ((f.1 :: renderFieldVal f.2) ++ ' ' :: renderFields rest) k = _
      rw [List.cons_append]
      simp only [afterKey]
      rw [if_neg hf1k]
      rw [afterKey_skip k (renderFieldVal f.2) _ (fun c hc he =>
        keyChar_ne k c hk (renderFieldVal_notKey f.2 c hc) he.symm)]
      simp only [afterKey]
      rw [if_neg (show ¬ (' ' = k) from fun he =>
        keyChar_ne k ' ' hk (by decide) he.symm)]
      exact hr

/-! Extraction at a located field. -/

theorem Seen_at (b : GCodeBuffer) (k : Char) (rest0 : List Char)
    (hafter : afterKey b.gcodeBuffer k = some rest0) : Seen b k = true := by
  unfold Seen
  rw [hafter]
  rfl

theorem GetFValue_at (b : GCodeBuffer) (k : Char) (v : NumLit) (rest : List Char)
    (hafter : afterKey b.gcodeBuffer k = some (renderNumLit v ++ ' ' :: rest)) :
    GetFValue b k = numLitVal v := by
  unfold GetFValue
  rw [hafter]
  exact parseQPrefix_render v (' ' :: rest) (by
    intro c hc
    simp only [List.head?_cons, Option.some.injEq] at hc
    rw [← hc]
    exact ⟨by decide, by decide, by decide⟩)

theorem GetLValue_at (b : GCodeBuffer) (k : Char) (v : NumLit) (rest : List Char)
    (hafter : afterKey b.gcodeBuffer k = some (renderNumLit v ++ ' ' :: rest)) :
    GetLValue b k = numLitIntVal v := by
  unfold GetLValue
  rw [hafter]
  exact parseIntPrefix_render v (' ' :: rest) (by
    intro c hc
    simp only [List.head?_cons, Option.some.injEq] at hc
    rw [← hc]
    exact ⟨by decide, by decide⟩)

theorem vectorSpan_render (vs : List NumLit) (rest : List Char) :
    vectorSpan (renderVec vs ++ ' ' :: rest) = renderVec vs := by
  unfold vectorSpan
  refine takeWhile_append_stop _ _ _ ?_ ?_
  · intro c hc
    rcases mem_renderVec vs c hc with h | h | h | ⟨d, h⟩
    · rw [h]; decide
    · rw [h]; decide
    · rw [h]; decide
    · rw [h]
      simp [digitChar_isNum d]
  · exact takeWhile_none _ (' ' :: rest) (fun c hc => by
      simp only [List.head?_cons, Option.some.injEq] at hc
      rw [← hc]
      decide)

theorem GetFloatArray_at (b : GCodeBuffer) (k : Char) (vs : List NumLit)
    (rest : List Char) (hvs : vs ≠ [])
    (hafter : afterKey b.gcodeBuffer k = some (renderVec vs ++ ' ' :: rest)) :
    GetFloatArray b k vs.length = some (vs.map numLitVal) := by
  unfold GetFloatArray
  rw [hafter]
  dsimp only
  rw [vectorSpan_render, splitOnColon_renderVec vs hvs]
  rw [if_pos (by simp)]
  rw [List.map_map]
  have hfun : parseQPrefix ∘ renderNumLit = numLitVal := funext fun x => by
    have h2 := parseQPrefix_render x [] (fun c hc => Option.noConfusion hc)
    simpa using h2
  rw [hfun]

theorem GetLongArray_at (b : GCodeBuffer) (k : Char) (vs : List NumLit)
    (rest : List Char) (hvs : vs ≠ [])
    (hafter : afterKey b.gcodeBuffer k = some (renderVec vs ++ ' ' :: rest)) :
    GetLongArray b k vs.length = some (vs.map numLitIntVal) := by
  unfold GetLongArray
  rw [hafter]
  dsimp only
  rw [vectorSpan_render, splitOnColon_renderVec vs hvs]
  rw [if_pos (by simp)]
  rw [List.map_map]
  have hfun : parseIntPrefix ∘ renderNumLit = numLitIntVal := funext fun x => by
    have h2 := parseIntPrefix_render x [] (fun c hc => Option.noConfusion hc)
    simpa using h2
  rw [hfun]

/-- Claim C4: for every valid command line with a correct checksum — any list of
distinct key-lettered numeric or vector fields, in any order — feeding the
characters through `put` reports completion on the terminator, and the
extractors return exactly the rendered values: `GetFValue` the exact rational,
`GetLValue`/`GetIValue` the integer part (the exact value for integer fields),
and `GetFloatArray`/`GetLongArray` the exact colon-separated vectors. -/
theorem valid_line_extracts (fields : List (Char × FieldVal)) (sup : List (Fin 10))
    (hnd : (fields.map Prod.fst).Nodup)
    (hkeys : ∀ kv ∈ fields, isKeyChar kv.1 = true)
    (hsup : sup ≠ [])
    (hck : natOfDigitsF sup = CheckSum (renderFields fields ++ '*' :: sup.map digitChar))
    (hlen : (renderFields fields).length + 1 + sup.length ≤ GCODE_LENGTH - 1) :
    (put (putLine initBuffer
      (renderFields fields ++ '*' :: sup.map digitChar)) '\n').2 = true ∧
    ∀ kv ∈ fields,
      Seen (put (putLine initBuffer
        (renderFields fields ++ '*' :: sup.map digitChar)) '\n').1 kv.1 = true ∧
      (∀ v, kv.2 = FieldVal.num v →
        GetFValue (put (putLine initBuffer
          (renderFields fields ++ '*' :: sup.map digitChar)) '\n').1 kv.1 = numLitVal v ∧
        GetLValue (put (putLine initBuffer
          (renderFields fields ++ '*' :: sup.map digitChar)) '\n').1 kv.1 = numLitIntVal v ∧
        GetIValue (put (putLine initBuffer
          (renderFields fields ++ '*' :: sup.map digitChar)) '\n').1 kv.1 = numLitIntVal v) ∧
      (∀ vs, kv.2 = FieldVal.vec vs → vs ≠ [] →
        GetFloatArray (put (putLine initBuffer
          (renderFields fields ++ '*' :: sup.map digitChar)) '\n').1 kv.1 vs.length
          = some (vs.map numLitVal) ∧
        GetLongArray (put (putLine initBuffer
          (renderFields fields ++ '*' :: sup.map digitChar)) '\n').1 kv.1 vs.length
          = some (vs.map numLitIntVal)) := by
  have hnlb := renderFields_ne fields hkeys '\n' (by decide) (by decide) (by decide)
    (by decide) (by decide) digitChar_ne_nl
  have hstarb := renderFields_ne fields hkeys '*' (by decide) (by decide) (by decide)
    (by decide) (by decide) digitChar_ne_star
  have hsemib := renderFields_ne fields hkeys ';' (by decide) (by decide) (by decide)
    (by decide) (by decide) digitChar_ne_semi
  have hnl : ∀ c ∈ renderFields fields ++ '*' :: sup.map digitChar, c ≠ '\n' := by
    intro c hc
    rcases List.mem_append.mp hc with h1 | h2
    · exact hnlb c h1
    · rcases List.mem_cons.mp h2 with h3 | h3
      · rw [h3]; decide
      · obtain ⟨d, _, hd⟩ := List.mem_map.mp h3
        rw [← hd]
        exact digitChar_ne_nl d
  have hgb : (putLine initBuffer
      (renderFields fields ++ '*' :: sup.map digitChar)).gcodeBuffer =
      renderFields fields ++ '*' :: sup.map digitChar := by
    rw [putLine_gcodeBuffer _ initBuffer hnl (by
      simp only [initBuffer, List.length_nil, List.length_append, List.length_cons,
        List.length_map, GCODE_LENGTH] at hlen ⊢
      omega)]
    simp [initBuffer]
  have hfin := finalizeLine_valid _ (renderFields fields) sup hgb hstarb hsup hck
  have hstrip : stripComment (renderFields fields) = renderFields fields := by
    unfold stripComment
    exact takeWhile_all _ _ (fun c hc => by simp [hsemib c hc])
  have hbufc : (put (putLine initBuffer
      (renderFields fields ++ '*' :: sup.map digitChar)) '\n').1.gcodeBuffer =
      renderFields fields := by
    rw [put_newline, hfin]
    exact hstrip
  refine ⟨by rw [put_newline, hfin], ?_⟩
  intro kv hkv
  obtain ⟨k, fv⟩ := kv
  obtain ⟨rest, hafter⟩ := afterKey_renderFields fields k fv hkv hnd hkeys
  have hafter' : afterKey ((put (putLine initBuffer
      (renderFields fields ++ '*' :: sup.map digitChar)) '\n').1).gcodeBuffer k =
      some (renderFieldVal fv ++ ' ' :: rest) := by
    rw [hbufc]
    exact hafter
  refine ⟨Seen_at _ _ _ hafter', ?_, ?_⟩
  · intro v hv
    have hv' : fv = FieldVal.num v := hv
    rw [hv'] at hafter'
    exact ⟨GetFValue_at _ k v rest hafter', GetLValue_at _ k v rest hafter',
      GetLValue_at _ k v rest hafter'⟩
  · intro vs hv hvs
    have hv' : fv = FieldVal.vec vs := hv
    rw [hv'] at hafter'
    exact ⟨GetFloatArray_at _ k vs rest hvs hafter',
      GetLongArray_at _ k vs rest hvs hafter'⟩

/-- Witness for C4: the line `G1 X10 F3000 *74` (74 is the correct checksum of
the rendered text) completes on the terminator. -/
theorem valid_line_extracts_witness :
    (put (putLine initBuffer (renderFields
        [('G', FieldVal.num ⟨false, [1], []⟩),
         ('X', FieldVal.num ⟨false, [1, 0], []⟩),
         ('F', FieldVal.num ⟨false, [3, 0, 0, 0], []⟩)] ++
      '*' :: ([7, 4] : List (Fin 10)).map digitChar)) '\n').2 = true :=
  (valid_line_extracts
    [('G', FieldVal.num ⟨false, [1], []⟩),
     ('X', FieldVal.num ⟨false, [1, 0], []⟩),
     ('F', FieldVal.num ⟨false, [3, 0, 0, 0], []⟩)]
    [7, 4] (by decide) (by decide) (by decide) (by decide) (by decide)).1

end RepRap
